import Mathlib

/-!
Shallow embedding of `code_traverser.py` (the "mindcanvas" prompt-maker
utility) and verification of its specification.

The program walks a directory tree with `os.walk`, selects files by
`valid_filename`, reads each selected file's text, and writes one aggregated
markdown-like document.  Strings model Python `str`; the filesystem is
modelled as a tree of entries where a file's content is `none` when its bytes
cannot be decoded as text, and a directory carries a flag saying whether
`scandir` can read it.  `os.walk` ignores scandir errors (its default
`onerror=None`), which the model reflects.
-/

namespace CodeTraverser

/-- Python `s.endswith(suffix)`: suffix match on the character sequence. -/
def endswith (s suffix : String) : Bool :=
  suffix.data.isSuffixOf s.data

/-- Python `s.startswith(pre)`: prefix match on the character sequence. -/
def startswith (s pre : String) : Bool :=
  pre.data.isPrefixOf s.data

/-- Python `sub in s`: substring containment on the character sequence. -/
def containsSub (s sub : String) : Bool :=
  decide (sub.data <:+: s.data)

/-- The fixed allow-list of extensions from `valid_filename`. -/
def extensions : List String :=
  [".jsx", ".js", ".ts", ".tsx", ".json", ".html", ".css", ".scss"]

/-- Function `valid_filename` from `code_traverser.py`: the extension allow-list test
followed by the three substring exclusions, chained with `and`. -/
def valid_filename (file_name : String) : Bool :=
  ((extensions.any fun ext => endswith file_name ext)
      && !(containsSub file_name "node_modules"))
    && !(containsSub file_name "package-lock")
    && !(containsSub file_name "README")

/-- Model of `os.path.splitext(p)[1]` (posixpath): the extension starting at the last
dot of the basename, empty when the basename has no dot or when every
character before that dot is itself a dot (leading-dot filenames). -/
def splitext_ext (p : String) : String :=
  let b := (p.data.reverse.takeWhile (fun c => c != '/')).reverse
  let afterDot := b.reverse.takeWhile (fun c => c != '.')
  if afterDot.length = b.length then ""
  else if (b.take (b.length - afterDot.length - 1)).any (fun c => c != '.') then
    String.mk ('.' :: afterDot.reverse)
  else ""

/-- Python `s.strip(".")`: remove leading and trailing dots. -/
def stripDots (s : String) : String :=
  String.mk (((s.data.dropWhile (fun c => c == '.')).reverse.dropWhile
    (fun c => c == '.')).reverse)

/-- One `file.write` of the loop body of `write_to_file`:
`f"filename: \x60{file_name}\x60\n\x60\x60\x60{ext}\n{details}\x60\x60\x60\n"`
with `ext = os.path.splitext(file_name)[1].strip(".")`. -/
def renderRecord (file_name details : String) : String :=
  "filename: `" ++ file_name ++ "`\n```" ++ stripDots (splitext_ext file_name)
    ++ "\n" ++ details ++ "```\n"

/-- The text emitted by the loop of `write_to_file`, in record order. -/
def render : List (String × String) → String
  | [] => ""
  | (file_name, details) :: rest => renderRecord file_name details ++ render rest

/-- Function `write_to_file` opens the output for truncating write and emits the
rendered records; its result is the new content of the output file. -/
def write_to_file (file_details : List (String × String)) : String :=
  render file_details

/-- A directory entry of the modelled filesystem.  A file stores its decoded
content, `none` when its bytes are not decodable text; a directory stores
whether `scandir` can read it, and its entries in listing order. -/
inductive Entry where
  | file (name : String) (content : Option String)
  | dir (name : String) (readable : Bool) (entries : List Entry)

/-- The error a run can raise: `open(...).read()` failing to decode a file. -/
inductive PyError where
  | unicodeDecodeError (path : String)
deriving DecidableEq

/-- Function `get_file_content`: read a file's text, raising a decode error when the
stored bytes are not decodable. -/
def get_file_content (file_path : String) (stored : Option String) :
    Except PyError String :=
  match stored with
  | none => .error (.unicodeDecodeError file_path)
  | some content => .ok content

/-- Model of `os.path.join(a, b)` (posixpath). -/
def pyJoin (a b : String) : String :=
  if startswith b "/" then b
  else if a = "" || endswith a "/" then a ++ b
  else a ++ "/" ++ b

/-- The subdirectory names of a listing, in order (`dirs` of an
`os.walk` triple). -/
def dirNames : List Entry → List String
  | [] => []
  | .file _ _ :: rest => dirNames rest
  | .dir n _ _ :: rest => n :: dirNames rest

/-- The plain files of a listing with their stored contents, in order
(`files` of an `os.walk` triple, paired with what a read would yield). -/
def fileList : List Entry → List (String × Option String)
  | [] => []
  | .file n c :: rest => (n, c) :: fileList rest
  | .dir _ _ _ :: rest => fileList rest

/-- One `os.walk` triple: the directory path, its subdirectory names, and its
file names with stored contents. -/
abbrev WalkTriple := String × List String × List (String × Option String)

mutual

/-- Triples contributed below one entry of a directory at `root`: a readable
subdirectory yields its own triple then its subtree, top-down; an unreadable
one yields nothing (`os.walk` ignores the scandir error); a file yields
nothing here. -/
def walkEntryTriples (root : String) : Entry → List WalkTriple
  | .file _ _ => []
  | .dir n readable sub =>
    if readable then
      (pyJoin root n, dirNames sub, fileList sub) :: walkListTriples (pyJoin root n) sub
    else []

/-- Triples contributed below all entries of the directory at `root`. -/
def walkListTriples (root : String) : List Entry → List WalkTriple
  | [] => []
  | e :: rest => walkEntryTriples root e ++ walkListTriples root rest

end

/-- Model of `os.walk(folder)`, top-down.  The filesystem argument is `none` when the
folder does not exist or cannot be read; `os.walk` then yields nothing, since
scandir errors are ignored by its default `onerror=None`. -/
def os_walk (folder : String) : Option (List Entry) → List WalkTriple
  | none => []
  | some es => (folder, dirNames es, fileList es) :: walkListTriples folder es

/-- The inner loop of `extract_file_details` over the `files` of one triple:
join the path, filter by `valid_filename`, and read each selected file,
propagating the first read error. -/
def extractFromFiles (root : String) :
    List (String × Option String) → Except PyError (List (String × String))
  | [] => .ok []
  | (file_name, stored) :: rest =>
    let file_path := pyJoin root file_name
    if valid_filename file_path then
      match get_file_content file_path stored with
      | .error e => .error e
      | .ok content =>
        match extractFromFiles root rest with
        | .error e => .error e
        | .ok tail => .ok ((file_path, content) :: tail)
    else extractFromFiles root rest

/-- The outer loop of `extract_file_details` over the `os.walk` triples. -/
def extractFromTriples : List WalkTriple → Except PyError (List (String × String))
  | [] => .ok []
  | (root, _dirs, files) :: rest =>
    match extractFromFiles root files with
    | .error e => .error e
    | .ok xs =>
      match extractFromTriples rest with
      | .error e => .error e
      | .ok ys => .ok (xs ++ ys)

/-- Function `extract_file_details(folder_path)` over the modelled filesystem. -/
def extract_file_details (folder_path : String) (fs : Option (List Entry)) :
    Except PyError (List (String × String)) :=
  extractFromTriples (os_walk folder_path fs)

/-- Function `create_prompt_file`, modelled as a transformer of the output file's
content (`none` = absent).  Extraction runs to completion first; the output
file is opened for truncating write only after extraction succeeded, so on an
extraction error the previous output content is untouched. -/
def create_prompt_file (folder_path : String) (fs : Option (List Entry))
    (prevOutput : Option String) : Except PyError Unit × Option String :=
  match extract_file_details folder_path fs with
  | .error e => (.error e, prevOutput)
  | .ok file_details => (.ok (), some (write_to_file file_details))

/-- C1: `valid_filename p` is true iff `p` ends with one of the eight
allow-listed extensions (case-sensitive suffix match) and `p` contains none
of the substrings "node_modules", "package-lock", "README". -/
theorem valid_filename_iff (p : String) :
    valid_filename p = true ↔
      ((∃ ext ∈ extensions, ext.data <:+ p.data)
        ∧ ¬ ("node_modules".data <:+: p.data)
        ∧ ¬ ("package-lock".data <:+: p.data)
        ∧ ¬ ("README".data <:+: p.data)) := by
  simp [valid_filename, endswith, containsSub, List.any_eq_true,
    List.isSuffixOf_iff_suffix, Bool.and_eq_true, and_assoc]

/-- C2: on `[("a/b.css", "body{}")]` the rendered output is exactly
`filename: \x60a/b.css\x60\n\x60\x60\x60css\nbody{}\x60\x60\x60\n`; in
general each record contributes its header line, the fence tagged with the
stripped extension, the raw content adjacent to the closing fence, and
records concatenate with no extra separator. -/
theorem render_format :
    render [("a/b.css", "body\x7b\x7d")]
        = "filename: `a/b.css`\n```css\nbody\x7b\x7d```\n"
      ∧ ∀ (p c : String) (rest : List (String × String)),
        render ((p, c) :: rest)
          = ("filename: `" ++ p ++ "`\n```" ++ stripDots (splitext_ext p)
              ++ "\n" ++ c ++ "```\n") ++ render rest := by
  refine ⟨?_, fun p c rest => rfl⟩
  decide

/-- C5: the exclusion check is case-sensitive: a lowercase "readme" path is
kept, while any path containing the exact substring "README" is rejected. -/
theorem valid_filename_case_sensitive :
    valid_filename "docs/readme-notes.json" = true
      ∧ ∀ p : String, containsSub p "README" = true → valid_filename p = false := by
  refine ⟨by decide, fun p h => ?_⟩
  simp [valid_filename, h]

theorem valid_filename_case_sensitive_witness :
    containsSub "src/README.css" "README" = true
      ∧ valid_filename "src/README.css" = false :=
  ⟨by decide, valid_filename_case_sensitive.2 "src/README.css" (by decide)⟩

/-- C6: rendering is deterministic: two runs on the same ordered sequence of
(path, content) pairs produce byte-identical output. -/
theorem render_deterministic (l₁ l₂ : List (String × String)) (h : l₁ = l₂) :
    render l₁ = render l₂ := by
  rw [h]

theorem render_deterministic_witness :
    ([("x.ts", "let a=1;")] : List (String × String)) = [("x.ts", "let a=1;")]
      ∧ render [("x.ts", "let a=1;")] = render [("x.ts", "let a=1;")] :=
  ⟨rfl, render_deterministic [("x.ts", "let a=1;")] [("x.ts", "let a=1;")] rfl⟩

/-- A substring of `a` is a substring of `a ++ b`. -/
theorem containsSub_append (a b excl : String) (h : containsSub a excl = true) :
    containsSub (a ++ b) excl = true := by
  simp only [containsSub, decide_eq_true_eq, String.data_append] at *
  exact h.trans ⟨[], b.data, by simp⟩

/-- Lemma: `pyJoin` keeps every substring of its first argument, provided the second
component is not an absolute path. -/
theorem containsSub_pyJoin (a b excl : String) (h : containsSub a excl = true)
    (hb : startswith b "/" = false) :
    containsSub (pyJoin a b) excl = true := by
  simp only [pyJoin, hb, Bool.false_eq_true, if_false]
  split
  · exact containsSub_append a b excl h
  · exact containsSub_append (a ++ "/") b excl (containsSub_append a "/" excl h)

/-- A path containing one of the three excluded substrings never passes
`valid_filename`. -/
theorem valid_filename_excluded (p excl : String)
    (hexcl : excl ∈ (["node_modules", "package-lock", "README"] : List String))
    (h : containsSub p excl = true) :
    valid_filename p = false := by
  simp only [List.mem_cons, List.not_mem_nil, or_false] at hexcl
  rcases hexcl with rfl | rfl | rfl <;> simp [valid_filename, h]

/-- No file name of the listing starts with "/". -/
def filesNoAbs : List (String × Option String) → Bool
  | [] => true
  | (n, _) :: rest => !(startswith n "/") && filesNoAbs rest

mutual

/-- No entry name anywhere in the subtree starts with "/" (directory entries
produced by a real scandir never do). -/
def entryNoAbs : Entry → Bool
  | .file n _ => !(startswith n "/")
  | .dir n _ sub => !(startswith n "/") && entriesNoAbs sub

/-- Conjunction of `entryNoAbs` over a listing. -/
def entriesNoAbs : List Entry → Bool
  | [] => true
  | e :: rest => entryNoAbs e && entriesNoAbs rest

end

theorem filesNoAbs_of_entriesNoAbs (es : List Entry) (h : entriesNoAbs es = true) :
    filesNoAbs (fileList es) = true := by
  induction es with
  | nil => rfl
  | cons e rest ih =>
    cases e with
    | file n c => simp_all [entriesNoAbs, entryNoAbs, fileList, filesNoAbs]
    | dir n r sub => simp_all [entriesNoAbs, fileList]

theorem filesNoAbs_mem (files : List (String × Option String)) (n : String)
    (c : Option String) (h : filesNoAbs files = true) (hm : (n, c) ∈ files) :
    startswith n "/" = false := by
  induction files with
  | nil => simp at hm
  | cons f rest ih =>
    obtain ⟨n', c'⟩ := f
    rcases List.mem_cons.mp hm with heq | htail
    · obtain ⟨rfl, rfl⟩ := Prod.mk.injEq .. |>.mp heq
      simp only [filesNoAbs, Bool.and_eq_true, Bool.not_eq_true'] at h
      exact h.1
    · simp only [filesNoAbs, Bool.and_eq_true] at h
      exact ih h.2 htail

mutual

/-- Every triple below an entry keeps the excluded substring in its root and
has no absolute file names, when the root has it and names are clean. -/
theorem walkEntry_excluded (excl root : String) (e : Entry)
    (hroot : containsSub root excl = true) (he : entryNoAbs e = true) :
    ∀ t ∈ walkEntryTriples root e,
      containsSub t.1 excl = true ∧ filesNoAbs t.2.2 = true := by
  cases e with
  | file n c => intro t ht; simp [walkEntryTriples] at ht
  | dir n readable sub =>
    intro t ht
    simp only [entryNoAbs, Bool.and_eq_true, Bool.not_eq_true'] at he
    cases readable with
    | false => simp [walkEntryTriples] at ht
    | true =>
      simp only [walkEntryTriples, if_true] at ht
      rcases List.mem_cons.mp ht with heq | htail
      · subst heq
        exact ⟨containsSub_pyJoin root n excl hroot he.1,
          filesNoAbs_of_entriesNoAbs sub he.2⟩
      · exact walkList_excluded excl (pyJoin root n) sub
          (containsSub_pyJoin root n excl hroot he.1) he.2 t htail

/-- Lemma `walkEntry_excluded` lifted over a listing. -/
theorem walkList_excluded (excl root : String) (es : List Entry)
    (hroot : containsSub root excl = true) (hes : entriesNoAbs es = true) :
    ∀ t ∈ walkListTriples root es,
      containsSub t.1 excl = true ∧ filesNoAbs t.2.2 = true := by
  cases es with
  | nil => intro t ht; simp [walkListTriples] at ht
  | cons e rest =>
    intro t ht
    simp only [entriesNoAbs, Bool.and_eq_true] at hes
    simp only [walkListTriples, List.mem_append] at ht
    rcases ht with h1 | h2
    · exact walkEntry_excluded excl root e hroot hes.1 t h1
    · exact walkList_excluded excl root rest hroot hes.2 t h2

end

/-- When every file of every triple fails the predicate, the inner loop
collects nothing and raises nothing (files are only read after passing). -/
theorem extractFromFiles_all_invalid (root : String)
    (files : List (String × Option String))
    (h : ∀ n c, (n, c) ∈ files → valid_filename (pyJoin root n) = false) :
    extractFromFiles root files = .ok [] := by
  induction files with
  | nil => rfl
  | cons f rest ih =>
    obtain ⟨n, c⟩ := f
    have hn := h n c (by simp)
    simp only [extractFromFiles, hn, Bool.false_eq_true, if_false]
    exact ih fun n' c' hm => h n' c' (List.mem_cons_of_mem _ hm)

/-- Lemma `extractFromFiles_all_invalid` lifted over the triple list. -/
theorem extractFromTriples_all_invalid (ts : List WalkTriple)
    (h : ∀ root dirs files, (root, dirs, files) ∈ ts →
      ∀ n c, (n, c) ∈ files → valid_filename (pyJoin root n) = false) :
    extractFromTriples ts = .ok [] := by
  induction ts with
  | nil => rfl
  | cons t rest ih =>
    obtain ⟨root, dirs, files⟩ := t
    have h1 : extractFromFiles root files = .ok [] :=
      extractFromFiles_all_invalid root files (h root dirs files (by simp))
    have h2 : extractFromTriples rest = .ok [] :=
      ih fun r d f hm => h r d f (List.mem_cons_of_mem _ hm)
    simp [extractFromTriples, h1, h2]

/-- An undecodable selected file in the listing makes the inner loop raise. -/
theorem extractFromFiles_error_of_bad (root : String)
    (files : List (String × Option String)) (name : String)
    (hval : valid_filename (pyJoin root name) = true)
    (hmem : (name, (none : Option String)) ∈ files) :
    ∃ e, extractFromFiles root files = .error e := by
  induction files with
  | nil => simp at hmem
  | cons f rest ih =>
    obtain ⟨n, c⟩ := f
    rcases List.mem_cons.mp hmem with heq | htail
    · obtain ⟨rfl, rfl⟩ := Prod.mk.injEq .. |>.mp heq
      exact ⟨.unicodeDecodeError (pyJoin root name),
        by simp [extractFromFiles, hval, get_file_content]⟩
    · by_cases hv : valid_filename (pyJoin root n) = true
      · cases c with
        | none =>
          exact ⟨.unicodeDecodeError (pyJoin root n),
            by simp [extractFromFiles, hv, get_file_content]⟩
        | some s =>
          obtain ⟨e, he⟩ := ih htail
          exact ⟨e, by simp [extractFromFiles, hv, get_file_content, he]⟩
      · obtain ⟨e, he⟩ := ih htail
        exact ⟨e, by simp [extractFromFiles, hv, he]⟩

/-- An undecodable selected file in any triple makes extraction raise. -/
theorem extractFromTriples_error_of_bad (ts : List WalkTriple)
    (root : String) (dirs : List String)
    (files : List (String × Option String)) (name : String)
    (hval : valid_filename (pyJoin root name) = true)
    (hmem : (root, dirs, files) ∈ ts)
    (hf : (name, (none : Option String)) ∈ files) :
    ∃ e, extractFromTriples ts = .error e := by
  induction ts with
  | nil => simp at hmem
  | cons t rest ih =>
    rcases List.mem_cons.mp hmem with heq | htail
    · obtain ⟨e, he⟩ := extractFromFiles_error_of_bad root files name hval hf
      exact ⟨e, by simp [extractFromTriples, ← heq, he]⟩
    · obtain ⟨r, d, f⟩ := t
      cases h1 : extractFromFiles r f with
      | error e => exact ⟨e, by simp [extractFromTriples, h1]⟩
      | ok xs =>
        obtain ⟨e, he⟩ := ih htail
        exact ⟨e, by simp [extractFromTriples, h1, he]⟩

/-- C3 counterexample: on a folder that does not exist (or cannot be read),
`os.walk` yields nothing, so the run does NOT fail: it returns the empty
collection and overwrites the output file with the empty string. -/
theorem missing_folder_succeeds_concrete :
    extract_file_details "missing" none = .ok []
      ∧ create_prompt_file "missing" none (some "old") = (.ok (), some "") :=
  ⟨rfl, rfl⟩

/-- C3 (amended): for every folder path that does not exist or cannot be
read, `os.walk` silently yields no triples, so collection returns the empty
sequence without error and the run completes, truncating the output file to
empty. -/
theorem missing_folder_silently_empty (folder : String) (prev : Option String) :
    extract_file_details folder none = .ok []
      ∧ create_prompt_file folder none prev = (.ok (), some "") :=
  ⟨rfl, rfl⟩

/-- C4: when some walked triple lists an undecodable file whose joined path
passes the predicate, the whole run aborts with the decode error and the
output file keeps its previous content (it is only opened after collection
succeeds). -/
theorem decode_error_aborts (folder : String) (fs : Option (List Entry))
    (prev : Option String)
    (h : ∃ root dirs files name, (root, dirs, files) ∈ os_walk folder fs
      ∧ (name, (none : Option String)) ∈ files
      ∧ valid_filename (pyJoin root name) = true) :
    ∃ e, extract_file_details folder fs = .error e
      ∧ create_prompt_file folder fs prev = (.error e, prev) := by
  obtain ⟨root, dirs, files, name, hmem, hf, hval⟩ := h
  obtain ⟨e, he⟩ :=
    extractFromTriples_error_of_bad (os_walk folder fs) root dirs files name hval hmem hf
  exact ⟨e, he, by simp [create_prompt_file, extract_file_details, he]⟩

theorem decode_error_aborts_witness :
    (∃ root dirs files name,
        (root, dirs, files) ∈ os_walk "r" (some [Entry.file "bad.css" none])
          ∧ (name, (none : Option String)) ∈ files
          ∧ valid_filename (pyJoin root name) = true)
      ∧ ∃ e, extract_file_details "r" (some [Entry.file "bad.css" none]) = .error e
          ∧ create_prompt_file "r" (some [Entry.file "bad.css" none]) (some "old")
              = (.error e, some "old") := by
  have hp : ∃ root dirs files name,
      (root, dirs, files) ∈ os_walk "r" (some [Entry.file "bad.css" none])
        ∧ (name, (none : Option String)) ∈ files
        ∧ valid_filename (pyJoin root name) = true :=
    ⟨"r", [], [("bad.css", none)], "bad.css",
      by simp [os_walk, dirNames, fileList, walkListTriples], by simp, by decide⟩
  exact ⟨hp, decode_error_aborts "r" (some [Entry.file "bad.css" none]) (some "old") hp⟩

/-- C7: running `create_prompt_file` a second time on the unchanged tree
leaves the run outcome and the output file exactly as after the first run;
the output is truncated and fully regenerated, never appended. -/
theorem create_prompt_file_idempotent (folder : String) (fs : Option (List Entry))
    (prev : Option String) :
    create_prompt_file folder fs ((create_prompt_file folder fs prev).2)
      = create_prompt_file folder fs prev := by
  cases h : extract_file_details folder fs <;> simp [create_prompt_file, h]

/-- C8: on a readable folder none of whose walked files passes the selection
predicate, the run completes without error and writes an empty output file. -/
theorem create_prompt_file_empty (folder : String) (es : List Entry)
    (prev : Option String)
    (h : ∀ root dirs files, (root, dirs, files) ∈ os_walk folder (some es) →
      ∀ n c, (n, c) ∈ files → valid_filename (pyJoin root n) = false) :
    create_prompt_file folder (some es) prev = (.ok (), some "") := by
  have h1 : extract_file_details folder (some es) = .ok [] :=
    extractFromTriples_all_invalid _ h
  simp [create_prompt_file, h1, write_to_file, render]

theorem create_prompt_file_empty_witness :
    (∀ root dirs files, (root, dirs, files) ∈ os_walk "f" (some []) →
      ∀ n c, (n, c) ∈ files → valid_filename (pyJoin root n) = false)
      ∧ create_prompt_file "f" (some []) none = (.ok (), some "") := by
  have hp : ∀ root dirs files, (root, dirs, files) ∈ os_walk "f" (some []) →
      ∀ n c, (n, c) ∈ files → valid_filename (pyJoin root n) = false := by
    intro root dirs files hmem n c hf
    simp only [os_walk, dirNames, fileList, walkListTriples,
      List.mem_singleton] at hmem
    obtain ⟨rfl, rfl, rfl⟩ := Prod.mk.injEq .. |>.mp hmem
      |>.imp id (Prod.mk.injEq .. |>.mp)
    simp at hf
  exact ⟨hp, create_prompt_file_empty "f" [] none hp⟩

/-- C9: the predicate sees the full joined path, so a root folder whose own
path contains an excluded substring poisons every file beneath it: collection
returns the empty sequence. -/
theorem excluded_root_collects_nothing (folder : String) (es : List Entry)
    (excl : String)
    (hexcl : excl ∈ (["node_modules", "package-lock", "README"] : List String))
    (hroot : containsSub folder excl = true)
    (hnames : entriesNoAbs es = true) :
    extract_file_details folder (some es) = .ok [] := by
  apply extractFromTriples_all_invalid
  intro root dirs files hmem n c hf
  have hkey : containsSub root excl = true ∧ filesNoAbs files = true := by
    simp only [os_walk] at hmem
    rcases List.mem_cons.mp hmem with heq | htail
    · obtain ⟨rfl, h2⟩ := Prod.mk.injEq .. |>.mp heq
      obtain ⟨-, rfl⟩ := Prod.mk.injEq .. |>.mp h2
      exact ⟨hroot, filesNoAbs_of_entriesNoAbs es hnames⟩
    · exact walkList_excluded excl folder es hroot hnames (root, dirs, files) htail
  exact valid_filename_excluded (pyJoin root n) excl hexcl
    (containsSub_pyJoin root n excl hkey.1 (filesNoAbs_mem files n c hkey.2 hf))

theorem excluded_root_collects_nothing_witness :
    ("node_modules" ∈ (["node_modules", "package-lock", "README"] : List String)
        ∧ containsSub "proj/node_modules" "node_modules" = true
        ∧ entriesNoAbs [Entry.file "a.css" (some "x")] = true)
      ∧ extract_file_details "proj/node_modules"
          (some [Entry.file "a.css" (some "x")]) = .ok [] := by
  refine ⟨⟨by simp, by decide, by decide⟩, ?_⟩
  exact excluded_root_collects_nothing "proj/node_modules"
    [Entry.file "a.css" (some "x")] "node_modules" (by simp) (by decide) (by decide)

/-- C10: a file named exactly ".css" passes the selection predicate (suffix
match succeeds), yet `os.path.splitext` gives it no extension, so its fence
carries an empty language tag. -/
theorem dotfile_selected_empty_tag :
    valid_filename ".css" = true
      ∧ stripDots (splitext_ext ".css") = ""
      ∧ ∀ c : String,
          render [(".css", c)] = "filename: `.css`\n```\n" ++ c ++ "```\n" := by
  refine ⟨by decide, by decide, fun c => ?_⟩
  show "filename: `" ++ ".css" ++ "`\n```" ++ stripDots (splitext_ext ".css")
      ++ "\n" ++ c ++ "```\n" ++ "" = "filename: `.css`\n```\n" ++ c ++ "```\n"
  have hK : "filename: `" ++ ".css" ++ "`\n```" ++ stripDots (splitext_ext ".css")
      ++ "\n" = "filename: `.css`\n```\n" := by decide
  rw [hK, String.append_empty]

end CodeTraverser
